import Mathlib

/-!
Shallow embedding of the hft-latency simulator (src/src/main.rs) and proofs
about it.  Prices are Rust f64 values; the embedding models them as exact
rationals (ℚ).  Every concrete price appearing in the properties below
(100, 101.5, ...) is exactly representable in binary floating point and the
arithmetic on them in the examples is exact, so the rational model agrees
with the f64 computation on those inputs.  Timestamps (std::time::Instant)
carry no information used by any property and are omitted from the records.
-/

namespace HftLatency

/-- main.rs line 25: const HISTORY_LEN: usize = 50. -/
abbrev HISTORY_LEN : Nat := 50

/-- main.rs line 26: const MOVING_AVG_LEN: usize = 5. -/
abbrev MOVING_AVG_LEN : Nat := 5

/-- main.rs lines 28-34, struct MarketData: count, price (Arc-RwLock f64,
modelled by its value), last_update (omitted), history. -/
structure MarketData where
  count : Nat
  price : ℚ
  history : List ℚ
deriving DecidableEq

/-- main.rs lines 36-42, struct UiData: count, value (Arc f64, modelled by
its value), last_update (omitted), history. -/
structure UiData where
  count : Nat
  value : ℚ
  history : List ℚ
deriving DecidableEq

/-- The shared push-then-evict idiom: history.push(x); if history.len() >
HISTORY_LEN { history.remove(0) } (main.rs lines 167-170 and 222-225). -/
def pushBounded (h : List ℚ) (x : ℚ) : List ℚ :=
  let h2 := h ++ [x]
  if h2.length > HISTORY_LEN then h2.drop 1 else h2

/-- main.rs lines 163-170, one instrument inside the generator sweep:
*p += delta; stamp time; history.push(*p); evict if over capacity. -/
def generatorUpdate (md : MarketData) (delta : ℚ) : MarketData :=
  ⟨md.count, md.price + delta, pushBounded md.history (md.price + delta)⟩

/-- main.rs lines 162-186: the whole-vector sweep under the exclusive write
lock.  Each instrument draws a fresh random delta; the rng is modelled as an
arbitrary stream of rationals, one per index. -/
def generatorSweep (deltas : Nat → ℚ) : List MarketData → List MarketData
  | [] => []
  | md :: rest => generatorUpdate md (deltas 0) :: generatorSweep (fun i => deltas (i + 1)) rest

/-- main.rs lines 214-216: the averaging slice, history[len.saturating_sub(5)..].
Nat subtraction is saturating, matching usize::saturating_sub. -/
def avgSlice (h : List ℚ) : List ℚ := h.drop (h.length - MOVING_AVG_LEN)

/-- main.rs line 217: slice.iter().sum::<f64>() / slice.len() as f64. -/
def movingAvg (h : List ℚ) : ℚ := (avgSlice h).sum / ((avgSlice h).length : ℚ)

/-- main.rs lines 214-225, one instrument in the aggregator cycle: compute
the mean, replace ui.value by a fresh Arc (replacement modelled as plain
assignment of the new value), stamp time, push to derived history, evict. -/
def aggregatorUpdate (md : MarketData) (ui : UiData) : UiData :=
  ⟨ui.count, movingAvg md.history, pushBounded ui.history (movingAvg md.history)⟩

/-- main.rs lines 213-226: for (i, ui) in ui_vec.iter_mut().enumerate(),
reading md_vec[i].  The indexed access is total exactly when ui_vec is no
longer than md_vec; both vectors are created with n_stocks = 3 entries and
never resized, so the truncating recursion below agrees with the code on
every state the program reaches. -/
def aggregatorStep : List MarketData → List UiData → List UiData
  | _, [] => []
  | [], _ :: _ => []
  | md :: mds, ui :: uis => aggregatorUpdate md ui :: aggregatorStep mds uis

/-- The two shared aggregates, market_data and ui_data (main.rs lines
121-145).  The append-only log file and the external sinks are modelled
separately as pure functions (flushFile, emitTick); neither reads or writes
these in-memory aggregates. -/
structure SystemState where
  market : List MarketData
  ui : List UiData
deriving DecidableEq

/-- main.rs line 105: let n_stocks = 3. -/
abbrev nStocks : Nat := 3

/-- main.rs lines 121-133: each MarketData starts with price 100.0 and
history vec![100.0; HISTORY_LEN]. -/
def initMarket (n : Nat) : List MarketData :=
  (List.range n).map (fun i => ⟨i, 100, List.replicate HISTORY_LEN 100⟩)

/-- main.rs lines 136-145: each UiData starts with value 100.0 and an empty
history. -/
def initUi (n : Nat) : List UiData :=
  (List.range n).map (fun i => ⟨i, 100, []⟩)

def initSystem : SystemState := ⟨initMarket nStocks, initUi nStocks⟩

/-- Effect of one generator tick (main.rs lines 159-199) on the two
in-memory aggregates: the sweep rewrites market_data; the generator thread
holds no reference to ui_data, and the co-scheduled flush touches only the
log file and the Postgres pool. -/
def generatorTick (deltas : Nat → ℚ) (s : SystemState) : SystemState :=
  ⟨generatorSweep deltas s.market, s.ui⟩

/-- Effect of one aggregator cycle (main.rs lines 209-229) on the two
aggregates. -/
def aggregatorTick (s : SystemState) : SystemState :=
  ⟨s.market, aggregatorStep s.market s.ui⟩

/-- main.rs lines 250-251: the renderer clones both aggregates under their
shared read locks and mutates neither; it returns the state unchanged
together with the two snapshots. -/
def rendererFrame (s : SystemState) : SystemState × List MarketData × List UiData :=
  (s, s.market, s.ui)

/-- States the two aggregates can be in: the startup state followed by any
interleaving of generator sweeps and aggregator cycles (renderer frames do
not change the state). -/
inductive Reachable : SystemState → Prop
  | init : Reachable initSystem
  | gen (s : SystemState) (deltas : Nat → ℚ) : Reachable s → Reachable (generatorTick deltas s)
  | agg (s : SystemState) : Reachable s → Reachable (aggregatorTick s)

/-! ## Flusher (main.rs lines 55-91, flush_file_to_postgres)

The log file content is modelled as its character sequence; the Postgres
pool as the list of issued inserts.  I/O itself is assumed to succeed (the
claims under study are about the successful path; a read failure makes the
function return early and a per-record insert failure only logs). -/

/-- Rust str::split(',').  Always returns at least one (possibly empty)
part; a separator at either end contributes an empty part. -/
def splitOnChar (sep : Char) : List Char → List (List Char)
  | [] => [[]]
  | c :: rest =>
    if c = sep then [] :: splitOnChar sep rest
    else
      match splitOnChar sep rest with
      | [] => [[c]]
      | p :: ps => (c :: p) :: ps

/-- Numeric value of the digit list, most significant first. -/
def natFromDigits (cs : List Char) : Nat :=
  cs.foldl (fun acc c => acc * 10 + (c.toNat - '0'.toNat)) 0

/-- Rust str::lines(): split at newline, optional final line terminator, a
carriage return immediately before a consumed newline is stripped. -/
def rustLines (s : List Char) : List (List Char) :=
  match splitOnChar '\n' s with
  | [] => []
  | parts =>
    let stripCR := fun (l : List Char) => if l.getLast? = some '\r' then l.dropLast else l
    let terminated := parts.dropLast.map stripCR
    match parts.getLast? with
    | some [] => terminated
    | some l => terminated ++ [l]
    | none => terminated

/-- Rust "string".parse::<i32>() (main.rs line 67): optional sign, one or
more ASCII digits, value within the i32 range. -/
def parseI32 (s : List Char) : Option Int :=
  let signDigits : Int × List Char :=
    match s with
    | '+' :: rest => (1, rest)
    | '-' :: rest => (-1, rest)
    | _ => (1, s)
  if signDigits.2 = [] ∨ ¬ signDigits.2.all Char.isDigit then none
  else
    let v : Int := signDigits.1 * natFromDigits signDigits.2
    if -(2 ^ 31) ≤ v ∧ v < 2 ^ 31 then some v else none

/-- Character-level part of "string".parse::<f32>() (main.rs line 71),
restricted to the plain decimal fragment of the f32 grammar that the log
format produces (optional sign, digits, optional point and fraction digits;
no exponent, no inf or nan): sign, integer part, fraction part, number of
fraction digits.  At least one digit must be present. -/
def parseDecimalParts (s : List Char) : Option (Int × Nat × Nat × Nat) :=
  let signRest : Int × List Char :=
    match s with
    | '+' :: rest => (1, rest)
    | '-' :: rest => (-1, rest)
    | _ => (1, s)
  let intPart := signRest.2.takeWhile Char.isDigit
  match signRest.2.dropWhile Char.isDigit with
  | [] => if intPart = [] then none else some (signRest.1, natFromDigits intPart, 0, 0)
  | '.' :: frac =>
    if frac.all Char.isDigit ∧ (intPart ≠ [] ∨ frac ≠ []) then
      some (signRest.1, natFromDigits intPart, natFromDigits frac, frac.length)
    else none
  | _ => none

/-- The parsed price as an exact rational.  The prices in the properties
under study (101.5, 100.0) are exactly representable in f32, where Rust's
parse agrees with this exact value. -/
def parseDecimal (s : List Char) : Option ℚ :=
  match parseDecimalParts s with
  | none => none
  | some (sg, ip, fp, k) => some ((sg : ℚ) * ((ip : ℚ) + (fp : ℚ) / 10 ^ k))

/-- What one log line contributes to the flush (main.rs lines 63-86):
wrong field count is skipped by a bare continue with no log; a failed
stock_id or price parse logs one error and continues; otherwise one insert
is issued. -/
inductive LineResult
  | skippedFieldCount
  | idError
  | priceError
  | record (stockId : Int) (price : ℚ)
deriving DecidableEq

def processLine (line : List Char) : LineResult :=
  match splitOnChar ',' line with
  | [a, b] =>
    match parseI32 a with
    | none => .idError
    | some sid =>
      match parseDecimal b with
      | none => .priceError
      | some p => .record sid p
  | _ => .skippedFieldCount

def recordOf? (r : LineResult) : Option (Int × ℚ) :=
  match r with
  | .record i p => some (i, p)
  | _ => none

def isLoggedParseError (r : LineResult) : Bool :=
  match r with
  | .idError => true
  | .priceError => true
  | _ => false

/-- Inserts issued for a batch of lines, in file order (main.rs lines 76-85). -/
def lineInserts (lines : List (List Char)) : List (Int × ℚ) :=
  lines.filterMap (fun l => recordOf? (processLine l))

/-- Number of parse-failure log entries for a batch of lines (the error!
calls at main.rs lines 69 and 73). -/
def lineLogs (lines : List (List Char)) : Nat :=
  lines.countP (fun l => isLoggedParseError (processLine l))

structure FlushResult where
  inserts : List (Int × ℚ)
  loggedParseFailures : Nat
  finalContent : List Char
deriving DecidableEq

/-- main.rs lines 55-91: read the whole file; empty content returns with no
work; otherwise process every line and truncate the file (File::create). -/
def flushFile (content : List Char) : FlushResult :=
  if content = [] then ⟨[], 0, content⟩
  else ⟨lineInserts (rustLines content), lineLogs (rustLines content), []⟩

/-! ## Renderer loop control flow (main.rs lines 234-373)

One frame either polls an event (possibly failing), reads a key (possibly
failing or matching the quit key), or draws (possibly failing).  Each
fallible call uses the question-mark operator: an Err propagates straight
out of main, past the teardown at lines 370-372.  The Bool in the result
records whether the teardown code (disable_raw_mode / LeaveAlternateScreen
/ show_cursor) was reached before the function returned. -/

inductive FrameInput
  | pollErr
  | readErr
  | quitKey
  | okFrame
  | drawErr
deriving DecidableEq

inductive ExitKind
  | quit
  | err
deriving DecidableEq

/-- Runs the render loop over a finite schedule of frame outcomes.  Returns
none while the schedule runs out with the loop still live; otherwise the
exit kind together with whether teardown was reached. -/
def rendererRun : List FrameInput → Option (ExitKind × Bool)
  | [] => none
  | .pollErr :: _ => some (.err, false)
  | .readErr :: _ => some (.err, false)
  | .quitKey :: _ => some (.quit, true)
  | .drawErr :: _ => some (.err, false)
  | .okFrame :: rest => rendererRun rest

/-! ## Sink emission inside the generator sweep (main.rs lines 172-185) -/

inductive SinkCall
  | fileAppend (stockId : Int) (price : ℚ)
  | redisSet (stockId : Int) (price : ℚ)
deriving DecidableEq

/-- How one instrument's tick record reaches the two sinks: syncCalls run
inline on the generator thread, inside the exclusive market_data lock;
spawnedCalls are handed to rt.spawn on the generator's dedicated Tokio
runtime. -/
structure TickEmission where
  syncCalls : List SinkCall
  spawnedCalls : List SinkCall
deriving DecidableEq

/-- main.rs lines 175-185: append_to_file is a plain synchronous call made
while the lock is held; only the Redis set is spawned onto the runtime. -/
def emitTick (sid : Int) (p : ℚ) : TickEmission :=
  ⟨[.fileAppend sid p], [.redisSet sid p]⟩

/-- One instrument inside the sweep together with its sink emission, at the
just-updated price (main.rs lines 162-186). -/
def generatorInstrStep (md : MarketData) (delta : ℚ) : MarketData × TickEmission :=
  (generatorUpdate md delta, emitTick (md.count : Int) (md.price + delta))

/-! ## Renderer chart bounds (main.rs lines 308-319 and 346-357) -/

/-- The last n entries of a list, the specification-level reading of
"the last min(W, available) entries". -/
def lastN (l : List ℚ) (n : Nat) : List ℚ := (l.reverse.take n).reverse

/-- main.rs lines 308-319 (and the identical 346-357): fold f64::min over
every value of every visible history, minus one, and f64::max plus one.
The fold starts from the infinities, so an empty chart yields the infinite
seeds; that case is modelled as none. -/
def chartBounds (histories : List (List ℚ)) : Option (ℚ × ℚ) :=
  match histories.flatten.min?, histories.flatten.max? with
  | some mn, some mx => some (mn - 1, mx + 1)
  | _, _ => none

instance : Std.Antisymm (fun (a b : ℚ) => a ≤ b) :=
  ⟨fun h1 h2 => le_antisymm h1 h2⟩

/-! ## Helper lemmas -/

lemma pushBounded_length_le {h : List ℚ} {x : ℚ} (hh : h.length ≤ HISTORY_LEN) :
    (pushBounded h x).length ≤ HISTORY_LEN := by
  simp only [pushBounded]
  split <;> rename_i hc <;>
    simp only [List.length_drop, List.length_append, List.length_cons, List.length_nil] at hc ⊢ <;>
    omega

lemma pushBounded_length_eq {h : List ℚ} {x : ℚ} (hh : h.length = HISTORY_LEN) :
    (pushBounded h x).length = HISTORY_LEN := by
  simp only [pushBounded]
  split <;> rename_i hc <;>
    simp only [List.length_drop, List.length_append, List.length_cons, List.length_nil] at hc ⊢ <;>
    omega

lemma pushBounded_full {h : List ℚ} {x : ℚ} (hh : h.length = HISTORY_LEN) :
    pushBounded h x = h.tail ++ [x] := by
  rw [pushBounded]
  rw [if_pos (by simp [hh])]
  cases h with
  | nil => simp at hh
  | cons a t => simp

lemma mem_generatorSweep {deltas : Nat → ℚ} {mds : List MarketData} {x : MarketData}
    (hx : x ∈ generatorSweep deltas mds) :
    ∃ md ∈ mds, ∃ d, x = generatorUpdate md d := by
  induction mds generalizing deltas with
  | nil => simp [generatorSweep] at hx
  | cons md rest ih =>
    simp only [generatorSweep, List.mem_cons] at hx
    rcases hx with h | h
    · exact ⟨md, by simp, deltas 0, h⟩
    · obtain ⟨md2, hmem, d, hd⟩ := ih h
      exact ⟨md2, by simp [hmem], d, hd⟩

lemma generatorSweep_length (deltas : Nat → ℚ) (mds : List MarketData) :
    (generatorSweep deltas mds).length = mds.length := by
  induction mds generalizing deltas with
  | nil => rfl
  | cons md rest ih => simp [generatorSweep, ih]

lemma mem_aggregatorStep {mds : List MarketData} {uis : List UiData} {x : UiData}
    (hx : x ∈ aggregatorStep mds uis) :
    ∃ md ui, ui ∈ uis ∧ x = aggregatorUpdate md ui := by
  induction mds generalizing uis with
  | nil =>
    cases uis with
    | nil => simp [aggregatorStep] at hx
    | cons u us => simp [aggregatorStep] at hx
  | cons md mds ih =>
    cases uis with
    | nil => simp [aggregatorStep] at hx
    | cons u us =>
      simp only [aggregatorStep, List.mem_cons] at hx
      rcases hx with h | h
      · exact ⟨md, u, by simp, h⟩
      · obtain ⟨md2, u2, hmem, he⟩ := ih h
        exact ⟨md2, u2, by simp [hmem], he⟩

lemma aggregatorStep_length {mds : List MarketData} {uis : List UiData}
    (h : uis.length = mds.length) :
    (aggregatorStep mds uis).length = uis.length := by
  induction mds generalizing uis with
  | nil =>
    cases uis with
    | nil => rfl
    | cons u us => simp at h
  | cons md mds ih =>
    cases uis with
    | nil => rfl
    | cons u us =>
      simp only [List.length_cons] at h
      have h2 : us.length = mds.length := by omega
      simp [aggregatorStep, ih h2]

lemma init_market_mem {n : Nat} {md : MarketData} (h : md ∈ initMarket n) :
    md.history.length = HISTORY_LEN := by
  simp only [initMarket, List.mem_map] at h
  obtain ⟨i, _, rfl⟩ := h
  simp

lemma init_ui_mem {n : Nat} {ui : UiData} (h : ui ∈ initUi n) :
    ui.history.length = 0 := by
  simp only [initUi, List.mem_map] at h
  obtain ⟨i, _, rfl⟩ := h
  simp

/-- Reachability invariant: every raw history keeps exactly HISTORY_LEN
entries — the histories start full (vec![init; HISTORY_LEN]) and each push
is followed by exactly one eviction. -/
lemma reachable_market_history_len {s : SystemState} (hs : Reachable s) :
    ∀ md ∈ s.market, md.history.length = HISTORY_LEN := by
  induction hs with
  | init => exact fun md hmd => init_market_mem hmd
  | gen s deltas hr ih =>
    intro md hmd
    obtain ⟨md0, hmem, d, rfl⟩ := mem_generatorSweep hmd
    exact pushBounded_length_eq (ih md0 hmem)
  | agg s hr ih => exact ih

/-- Reachability invariant: every derived history stays within capacity. -/
lemma reachable_ui_history_le {s : SystemState} (hs : Reachable s) :
    ∀ ui ∈ s.ui, ui.history.length ≤ HISTORY_LEN := by
  induction hs with
  | init =>
    intro ui hui
    rw [init_ui_mem hui]
    omega
  | gen s deltas hr ih => exact ih
  | agg s hr ih =>
    intro ui hui
    obtain ⟨md0, ui0, hmem, rfl⟩ := mem_aggregatorStep hui
    exact pushBounded_length_le (ih ui0 hmem)

/-- Reachability invariant: ui_data and market_data keep the same number of
entries. -/
lemma reachable_lengths {s : SystemState} (hs : Reachable s) :
    s.ui.length = s.market.length := by
  induction hs with
  | init => simp [initSystem, initMarket, initUi]
  | gen s deltas hr ih => simpa [generatorTick, generatorSweep_length] using ih
  | agg s hr ih =>
    show (aggregatorStep s.market s.ui).length = s.market.length
    rw [aggregatorStep_length ih, ih]

lemma lastN_eq_avgSlice (h : List ℚ) :
    lastN h (min MOVING_AVG_LEN h.length) = avgSlice h := by
  rw [lastN, avgSlice, List.take_reverse, List.reverse_reverse]
  congr 1
  omega

lemma avgSlice_length (h : List ℚ) :
    (avgSlice h).length = min MOVING_AVG_LEN h.length := by
  simp [avgSlice]
  omega

/-- A line whose comma split does not have exactly two fields is skipped by
the bare continue at main.rs line 65, producing neither an insert nor an
error log. -/
lemma processLine_skippedFieldCount {bad : List Char}
    (h : (splitOnChar ',' bad).length ≠ 2) :
    processLine bad = LineResult.skippedFieldCount := by
  rw [processLine]
  split
  · rename_i a b heq
    rw [heq] at h
    simp at h
  · rfl

/-- A two-field line with an unparseable id or price is logged (exactly one
of the two error! calls fires) and contributes no insert. -/
lemma processLine_logged {bad a b : List Char} (heq : splitOnChar ',' bad = [a, b])
    (hp : parseI32 a = none ∨ parseDecimal b = none) :
    isLoggedParseError (processLine bad) = true ∧ recordOf? (processLine bad) = none := by
  rw [processLine, heq]
  dsimp only
  rcases hi : parseI32 a with _ | sid
  · exact ⟨rfl, rfl⟩
  · rcases hp with hp | hp
    · rw [hi] at hp
      cases hp
    · rw [hp]
      exact ⟨rfl, rfl⟩

/-! ## Claims -/

/-- C1: At every Aggregator recompute, for each instrument, the new
smoothed value equals the arithmetic mean of the last min(5, history
length) entries of that instrument's raw price history; in particular raw
history [100, 101, 99, 102, 103] yields smoothed value 101.0. -/
theorem C1_smoothed_value_is_moving_mean :
    (∀ (md : MarketData) (ui : UiData), md.history ≠ [] →
      (aggregatorUpdate md ui).value
        = (lastN md.history (min MOVING_AVG_LEN md.history.length)).sum
          / ((min MOVING_AVG_LEN md.history.length : Nat) : ℚ))
    ∧ (aggregatorUpdate ⟨0, 100, [100, 101, 99, 102, 103]⟩ ⟨0, 100, []⟩).value = 101 := by
  constructor
  · intro md ui _
    show movingAvg md.history = _
    rw [movingAvg, lastN_eq_avgSlice, avgSlice_length]
  · show movingAvg [100, 101, 99, 102, 103] = 101
    rw [movingAvg]
    norm_num [avgSlice, List.sum_cons, List.sum_nil]

/-- Witness for C1 at the concrete five-entry history. -/
theorem C1_smoothed_value_is_moving_mean_witness :
    (([100, 101, 99, 102, 103] : List ℚ) ≠ [])
    ∧ (aggregatorUpdate ⟨0, 100, [100, 101, 99, 102, 103]⟩ ⟨0, 100, []⟩).value
      = (lastN [100, 101, 99, 102, 103]
            (min MOVING_AVG_LEN ([100, 101, 99, 102, 103] : List ℚ).length)).sum
        / ((min MOVING_AVG_LEN ([100, 101, 99, 102, 103] : List ℚ).length : Nat) : ℚ) :=
  ⟨by simp,
   C1_smoothed_value_is_moving_mean.1 ⟨0, 100, [100, 101, 99, 102, 103]⟩ ⟨0, 100, []⟩ (by simp)⟩

/-- C2: On every reachable state both the raw and the derived history of
every instrument hold at most HISTORY_LEN = 50 entries, and an append to a
full history evicts the oldest entry. -/
theorem C2_history_capacity_invariant :
    (∀ s : SystemState, Reachable s →
      (∀ md ∈ s.market, md.history.length ≤ HISTORY_LEN)
      ∧ (∀ ui ∈ s.ui, ui.history.length ≤ HISTORY_LEN))
    ∧ (∀ (h : List ℚ) (x : ℚ), h.length = HISTORY_LEN →
        pushBounded h x = h.tail ++ [x]) :=
  ⟨fun _ hs =>
    ⟨fun md hmd => le_of_eq (reachable_market_history_len hs md hmd),
     reachable_ui_history_le hs⟩,
   fun _ _ hh => pushBounded_full hh⟩

/-- Witness for C2: the startup state, and an eviction on a full history. -/
theorem C2_history_capacity_invariant_witness :
    (Reachable initSystem
      ∧ (∀ md ∈ initSystem.market, md.history.length ≤ HISTORY_LEN)
      ∧ (∀ ui ∈ initSystem.ui, ui.history.length ≤ HISTORY_LEN))
    ∧ ((List.replicate HISTORY_LEN (100 : ℚ)).length = HISTORY_LEN
      ∧ pushBounded (List.replicate HISTORY_LEN (100 : ℚ)) 7
        = (List.replicate HISTORY_LEN (100 : ℚ)).tail ++ [7]) :=
  ⟨⟨Reachable.init,
    (C2_history_capacity_invariant.1 initSystem Reachable.init).1,
    (C2_history_capacity_invariant.1 initSystem Reachable.init).2⟩,
   by simp,
   C2_history_capacity_invariant.2 (List.replicate HISTORY_LEN (100 : ℚ)) 7 (by simp)⟩

/-- C3: After every Generator update of an instrument, the most recent
entry of its raw history equals the instrument's just-updated current
price. -/
theorem C3_latest_history_entry_equals_price (md : MarketData) (delta : ℚ) :
    ((generatorUpdate md delta).history).getLast? = some (generatorUpdate md delta).price := by
  show (pushBounded md.history (md.price + delta)).getLast? = some (md.price + delta)
  rw [pushBounded]
  split
  · rename_i hc
    cases hmd : md.history with
    | nil => rw [hmd] at hc; simp at hc
    | cons a t => simp [List.getLast?_concat, List.drop_one]
  · exact List.getLast?_concat _

/-- C4: Flushing the log content "0,101.5\n1,bad\n2,100.0\n" issues
inserts for ids 0 and 2 only, with prices 101.5 and 100.0, logs exactly
one parse failure, and leaves the log empty afterward. -/
theorem C4_flush_mixed_batch :
    flushFile ("0,101.5\n1,bad\n2,100.0\n".toList)
      = ⟨[(0, 101.5), (2, 100)], 1, []⟩ := by
  have hne : ("0,101.5\n1,bad\n2,100.0\n".toList) ≠ [] := by decide
  have hl : rustLines ("0,101.5\n1,bad\n2,100.0\n".toList)
      = ["0,101.5".toList, "1,bad".toList, "2,100.0".toList] := by decide
  have h1 : processLine ("0,101.5".toList) = LineResult.record 0 101.5 := by
    have hs : splitOnChar ',' ("0,101.5".toList) = ["0".toList, "101.5".toList] := by decide
    have hi : parseI32 ("0".toList) = some 0 := by decide
    have hp : parseDecimalParts ("101.5".toList) = some (1, 101, 5, 1) := by decide
    rw [processLine, hs]
    dsimp only
    rw [hi]
    dsimp only
    rw [parseDecimal, hp]
    dsimp only
    norm_num
  have h2 : processLine ("1,bad".toList) = LineResult.priceError := by decide
  have h3 : processLine ("2,100.0".toList) = LineResult.record 2 100 := by
    have hs : splitOnChar ',' ("2,100.0".toList) = ["2".toList, "100.0".toList] := by decide
    have hi : parseI32 ("2".toList) = some 2 := by decide
    have hp : parseDecimalParts ("100.0".toList) = some (1, 100, 0, 1) := by decide
    rw [processLine, hs]
    dsimp only
    rw [hi]
    dsimp only
    rw [parseDecimal, hp]
    dsimp only
    norm_num
  rw [flushFile, if_neg hne, hl]
  rw [lineInserts, lineLogs]
  simp only [List.filterMap_cons, List.filterMap_nil, List.countP_cons, List.countP_nil,
    h1, h2, h3, recordOf?, isLoggedParseError]
  norm_num

/-- C5 counterexample: the claim says every malformed line is skipped AND
logged, but flushing the single wrong-field-count line "0" produces no
insert and zero logged parse failures — it is skipped silently. -/
theorem C5_wrong_field_count_not_logged_cex :
    (flushFile ("0\n".toList)).inserts = []
    ∧ (flushFile ("0\n".toList)).loggedParseFailures = 0
    ∧ (flushFile ("0\n".toList)).finalContent = [] := by
  decide

/-- C5 (amended): during a flush a line with the wrong field count is
skipped silently with no log, while a two-field line with a non-numeric id
or price is skipped and logged exactly once; in both cases the lines
before and after the malformed one are processed normally. -/
theorem C5_malformed_line_handling :
    (∀ (pre post : List (List Char)) (bad : List Char),
      (splitOnChar ',' bad).length ≠ 2 →
        lineInserts (pre ++ bad :: post) = lineInserts pre ++ lineInserts post ∧
        lineLogs (pre ++ bad :: post) = lineLogs pre + lineLogs post)
    ∧ (∀ (pre post : List (List Char)) (bad a b : List Char),
      splitOnChar ',' bad = [a, b] →
      (parseI32 a = none ∨ parseDecimal b = none) →
        lineInserts (pre ++ bad :: post) = lineInserts pre ++ lineInserts post ∧
        lineLogs (pre ++ bad :: post) = lineLogs pre + 1 + lineLogs post) := by
  constructor
  · intro pre post bad h
    have hb := processLine_skippedFieldCount h
    constructor
    · simp [lineInserts, List.filterMap_append, List.filterMap_cons, hb, recordOf?]
    · simp [lineLogs, List.countP_append, List.countP_cons, hb, isLoggedParseError]
  · intro pre post bad a b heq hp
    have hb := processLine_logged heq hp
    constructor
    · simp [lineInserts, List.filterMap_append, List.filterMap_cons, hb.2]
    · simp [lineLogs, List.countP_append, List.countP_cons, hb.1]
      omega

/-- Witness for C5 (amended): a one-field line, and a two-field line with
a non-numeric price. -/
theorem C5_malformed_line_handling_witness :
    ((splitOnChar ',' ("0".toList)).length ≠ 2
      ∧ lineInserts ["0".toList] = lineInserts [] ++ lineInserts []
      ∧ lineLogs ["0".toList] = lineLogs [] + lineLogs [])
    ∧ (splitOnChar ',' ("1,bad".toList) = ["1".toList, "bad".toList]
      ∧ (parseI32 ("1".toList) = none ∨ parseDecimal ("bad".toList) = none)
      ∧ lineInserts ["1,bad".toList] = lineInserts [] ++ lineInserts []
      ∧ lineLogs ["1,bad".toList] = lineLogs [] + 1 + lineLogs []) :=
  ⟨⟨by decide,
    (C5_malformed_line_handling.1 [] [] ("0".toList) (by decide)).1,
    (C5_malformed_line_handling.1 [] [] ("0".toList) (by decide)).2⟩,
   by decide,
   Or.inr (by decide),
   (C5_malformed_line_handling.2 [] [] ("1,bad".toList) ("1".toList) ("bad".toList)
      (by decide) (Or.inr (by decide))).1,
   (C5_malformed_line_handling.2 [] [] ("1,bad".toList) ("1".toList) ("bad".toList)
      (by decide) (Or.inr (by decide))).2⟩

/-- C6 counterexample: the claim says the terminal session is released on
every exit path including abnormal termination, but a terminal I/O error
in the first frame makes the loop exit with an error without the teardown
code at main.rs lines 370-372 ever running. -/
theorem C6_abnormal_exit_skips_teardown_cex :
    rendererRun [FrameInput.pollErr] = some (ExitKind.err, false) := rfl

/-- C6 (amended): the teardown at main.rs lines 370-372 runs exactly on
the quit-key exit path; on a terminal I/O error the question-mark operator
propagates the error out of main and the teardown is skipped. -/
theorem C6_teardown_only_on_quit (inputs : List FrameInput) (ek : ExitKind) (released : Bool)
    (h : rendererRun inputs = some (ek, released)) :
    released = true ↔ ek = ExitKind.quit := by
  induction inputs with
  | nil => simp [rendererRun] at h
  | cons i rest ih =>
    cases i <;> simp only [rendererRun, Option.some.injEq, Prod.mk.injEq] at h
    case pollErr => obtain ⟨rfl, rfl⟩ := h; simp
    case readErr => obtain ⟨rfl, rfl⟩ := h; simp
    case quitKey => obtain ⟨rfl, rfl⟩ := h; simp
    case drawErr => obtain ⟨rfl, rfl⟩ := h; simp
    case okFrame => exact ih h

/-- Witness for C6 (amended): the quit-key run. -/
theorem C6_teardown_only_on_quit_witness :
    rendererRun [FrameInput.quitKey] = some (ExitKind.quit, true)
    ∧ (true = true ↔ ExitKind.quit = ExitKind.quit) :=
  ⟨rfl, C6_teardown_only_on_quit [FrameInput.quitKey] ExitKind.quit true rfl⟩

/-- C7 counterexample: the claim says the emission to both sinks is
dispatched on the separate runtime, but the durable-log append for
instrument 0 at price 102 is made synchronously under the lock and is not
among the spawned calls. -/
theorem C7_file_append_not_spawned_cex :
    SinkCall.fileAppend 0 102 ∈ (generatorInstrStep ⟨0, 100, []⟩ 2).2.syncCalls
    ∧ SinkCall.fileAppend 0 102 ∉ (generatorInstrStep ⟨0, 100, []⟩ 2).2.spawnedCalls := by
  constructor
  · show SinkCall.fileAppend 0 102 ∈ [SinkCall.fileAppend ((0 : Nat) : Int) (100 + 2)]
    norm_num
  · intro hmem
    simp [generatorInstrStep, emitTick] at hmem

/-- C7 (amended): only the cache write is dispatched on the separate
unbounded runtime; the append to the durable log runs synchronously on the
generator thread while the exclusive MarketState lock is held, so log
latency does extend the lock hold time. -/
theorem C7_only_cache_write_spawned (md : MarketData) (delta : ℚ) :
    (generatorInstrStep md delta).2.syncCalls
      = [SinkCall.fileAppend (md.count : Int) (md.price + delta)]
    ∧ (generatorInstrStep md delta).2.spawnedCalls
      = [SinkCall.redisSet (md.count : Int) (md.price + delta)] :=
  ⟨rfl, rfl⟩

/-- C8: each chart's y-axis bounds are exactly [min of all visible values
minus 1, max of all visible values plus 1]; in particular a single-series
history [98, 100, 102] yields bounds [97, 103]. -/
theorem C8_chart_bounds_min_max :
    (∀ hs : List (List ℚ), hs.flatten ≠ [] →
      ∃ lo hi, chartBounds hs = some (lo, hi) ∧
        (lo + 1) ∈ hs.flatten ∧ (∀ v ∈ hs.flatten, lo + 1 ≤ v) ∧
        (hi - 1) ∈ hs.flatten ∧ (∀ v ∈ hs.flatten, v ≤ hi - 1))
    ∧ chartBounds [[98, 100, 102]] = some (97, 103) := by
  constructor
  · intro hs hne
    obtain ⟨mn, hmn⟩ : ∃ mn, hs.flatten.min? = some mn := by
      cases hfl : hs.flatten with
      | nil => exact absurd hfl hne
      | cons a l => exact ⟨_, rfl⟩
    obtain ⟨mx, hmx⟩ : ∃ mx, hs.flatten.max? = some mx := by
      cases hfl : hs.flatten with
      | nil => exact absurd hfl hne
      | cons a l => exact ⟨_, rfl⟩
    have hmn2 := (List.min?_eq_some_iff (fun a => le_refl a) (fun a b => min_choice a b)
      (fun a b c => le_min_iff)).mp hmn
    have hmx2 := (List.max?_eq_some_iff (fun a => le_refl a) (fun a b => max_choice a b)
      (fun a b c => max_le_iff)).mp hmx
    refine ⟨mn - 1, mx + 1, ?_, ?_, ?_, ?_, ?_⟩
    · rw [chartBounds, hmn, hmx]
    · simpa using hmn2.1
    · intro v hv
      have := hmn2.2 v hv
      linarith
    · simpa using hmx2.1
    · intro v hv
      have := hmx2.2 v hv
      linarith
  · have h1 : ([[(98 : ℚ), 100, 102]] : List (List ℚ)).flatten = [98, 100, 102] := by simp
    have h2 : ([(98 : ℚ), 100, 102]).min? = some 98 := by
      rw [List.min?]
      norm_num [List.foldl, min_def]
    have h3 : ([(98 : ℚ), 100, 102]).max? = some 102 := by
      rw [List.max?]
      norm_num [List.foldl, max_def]
    rw [chartBounds, h1, h2, h3]
    norm_num

/-- Witness for C8 at the single-series history [98, 100, 102]. -/
theorem C8_chart_bounds_min_max_witness :
    (([[(98 : ℚ), 100, 102]] : List (List ℚ)).flatten ≠ [])
    ∧ ∃ lo hi, chartBounds [[(98 : ℚ), 100, 102]] = some (lo, hi) ∧
        (lo + 1) ∈ ([[(98 : ℚ), 100, 102]] : List (List ℚ)).flatten
        ∧ (∀ v ∈ ([[(98 : ℚ), 100, 102]] : List (List ℚ)).flatten, lo + 1 ≤ v)
        ∧ (hi - 1) ∈ ([[(98 : ℚ), 100, 102]] : List (List ℚ)).flatten
        ∧ (∀ v ∈ ([[(98 : ℚ), 100, 102]] : List (List ℚ)).flatten, v ≤ hi - 1) :=
  ⟨by simp, C8_chart_bounds_min_max.1 [[(98 : ℚ), 100, 102]] (by simp)⟩

/-- C9: UiState is written only by the Aggregator — a generator tick and a
renderer frame leave every DerivedInstrument unchanged — and on every
reachable state ui_data has exactly as many entries as market_data. -/
theorem C9_ui_written_only_by_aggregator :
    (∀ (deltas : Nat → ℚ) (s : SystemState), (generatorTick deltas s).ui = s.ui)
    ∧ (∀ s : SystemState, (rendererFrame s).1 = s)
    ∧ (∀ s : SystemState, Reachable s → s.ui.length = s.market.length) :=
  ⟨fun _ _ => rfl, fun _ => rfl, fun _ hs => reachable_lengths hs⟩

/-- Witness for C9 at the startup state. -/
theorem C9_ui_written_only_by_aggregator_witness :
    Reachable initSystem ∧ initSystem.ui.length = initSystem.market.length :=
  ⟨Reachable.init, C9_ui_written_only_by_aggregator.2.2 initSystem Reachable.init⟩

/-- C10: on every reachable state each raw history holds exactly
HISTORY_LEN = 50 entries, so the averaging slice always has exactly
MOVING_AVG_LEN = 5 entries and the divisor of the mean is never zero. -/
theorem C10_avg_slice_never_empty (s : SystemState) (hs : Reachable s) :
    ∀ md ∈ s.market, md.history.length = HISTORY_LEN
      ∧ (avgSlice md.history).length = MOVING_AVG_LEN
      ∧ ((avgSlice md.history).length : ℚ) ≠ 0 := by
  intro md hmd
  have hlen := reachable_market_history_len hs md hmd
  have hsl : (avgSlice md.history).length = MOVING_AVG_LEN := by
    rw [avgSlice_length, hlen]
    decide
  refine ⟨hlen, hsl, ?_⟩
  rw [hsl]
  norm_num

/-- Witness for C10 at the startup state. -/
theorem C10_avg_slice_never_empty_witness :
    Reachable initSystem
    ∧ ∀ md ∈ initSystem.market, md.history.length = HISTORY_LEN
      ∧ (avgSlice md.history).length = MOVING_AVG_LEN
      ∧ ((avgSlice md.history).length : ℚ) ≠ 0 :=
  ⟨Reachable.init, C10_avg_slice_never_empty initSystem Reachable.init⟩

end HftLatency
